import Mathlib

/-!
Verification of the test-discovery engine of the evalops CLI
(`src/lib/simple-test-discovery.ts`).

The embedding works over `List Char` as the file-content type.  The three
JavaScript regular expressions used by `SimpleTestDiscovery.parseTestFile`
are embedded as deterministic matchers (each of the three patterns is
backtracking-free except for the lazy `{[\s\S]*?}` group, embedded by
`lazyBody`), and the `exec`-in-a-loop idiom is embedded by `execAllAux`,
which finds the leftmost match at or after the current index and resumes
after it.  The dynamic evaluation of configuration literals
(`new Function('return ' + configStr)()`) is an effectful collaborator and
is passed in as a parameter `ev : Str → Option Config`; `none` plays the
role of the caught exception.
-/

namespace EvalOps

abbrev Str := List Char

/-- JavaScript's `\s` character class (ECMA-262 WhiteSpace ∪ LineTerminator). -/
def jsSpace (c : Char) : Bool :=
  c = ' ' || c = '\t' || c = '\n' || c = '\r' || c = '\x0b' || c = '\x0c' ||
  c.toNat = 0xA0 || c.toNat = 0x1680 || (0x2000 ≤ c.toNat && c.toNat ≤ 0x200A) ||
  c.toNat = 0x2028 || c.toNat = 0x2029 || c.toNat = 0x202F || c.toNat = 0x205F ||
  c.toNat = 0x3000 || c.toNat = 0xFEFF

/-- JavaScript's `\w` character class. -/
def wordChar (c : Char) : Bool :=
  ('a' ≤ c && c ≤ 'z') || ('A' ≤ c && c ≤ 'Z') || ('0' ≤ c && c ≤ '9') || c = '_'

/-- Consume an exact literal; return the remainder on success. -/
def dropLit : Str → Str → Option Str
  | [], s => some s
  | _ :: _, [] => none
  | c :: cs, d :: ds => if c = d then dropLit cs ds else none

/-- Number of leading `\s` characters (greedy `\s*`). -/
def spaceCount (s : Str) : Nat := (s.takeWhile jsSpace).length

/-- The lazy group `[\s\S]*?}` followed by a continuation pattern: scanning
the text after the opening `{`, at each position first try to end the group
(current char `}` and the continuation matches after it), otherwise absorb
the char into the group.  Returns the group's inner text and the length
consumed by the continuation. -/
def lazyBody (cont : Str → Option Nat) : Str → Option (Str × Nat)
  | [] => none
  | c :: rest =>
    if c = '}' then
      match cont rest with
      | some m => some ([], m)
      | none => (lazyBody cont rest).map (fun p => (c :: p.1, p.2))
    else (lazyBody cont rest).map (fun p => (c :: p.1, p.2))

/-- Continuation `\s*\)` of the decorator pattern. -/
def closeParenCont (s : Str) : Option Nat :=
  let n := spaceCount s
  match s.drop n with
  | ')' :: _ => some (n + 1)
  | _ => none

/-- Continuation `\s*,\s*function[^{]*{` of the call pattern. -/
def callCont (s : Str) : Option Nat :=
  let n := spaceCount s
  match s.drop n with
  | ',' :: s1 =>
    let n2 := spaceCount s1
    match dropLit ("function".data) (s1.drop n2) with
    | none => none
    | some s2 =>
      let n3 := (s2.takeWhile (fun c => !(c = '{'))).length
      match s2.drop n3 with
      | '{' :: _ => some (n + 1 + n2 + 8 + n3 + 1)
      | _ => none
  | _ => none

/-- Match of `/@evalops_test\s*\(\s*({[\s\S]*?})\s*\)/` at the head of `s`:
returns the captured group (braces included) and the match length. -/
def decoratorMatchHere (s : Str) : Option (Str × Nat) :=
  match dropLit ("@evalops_test".data) s with
  | none => none
  | some s1 =>
    match s1.drop (spaceCount s1) with
    | '(' :: s2 =>
      match s2.drop (spaceCount s2) with
      | '{' :: s3 =>
        match lazyBody closeParenCont s3 with
        | none => none
        | some (inner, m) =>
          some ('{' :: inner ++ ['}'],
            13 + spaceCount s1 + 1 + spaceCount s2 + 1 + inner.length + 1 + m)
      | _ => none
    | _ => none

/-- The `\s+(\w+)` middle part of the function pattern: requires at
least one space and a nonempty word; returns the name and the remainder
after it. -/
def fnNamePart (s1 : Str) : Option (Str × Str) :=
  if spaceCount s1 = 0 then none
  else
    match (s1.drop (spaceCount s1)).takeWhile wordChar with
    | [] => none
    | c :: name' => some (c :: name', (s1.drop (spaceCount s1)).drop (c :: name').length)

/-- Match of `/function\s+(\w+)\s*\([^)]*\)\s*{/` at the head of `s`:
returns the captured function name and the match length. -/
def functionMatchHere (s : Str) : Option (Str × Nat) :=
  match dropLit ("function".data) s with
  | none => none
  | some s1 =>
    match fnNamePart s1 with
    | none => none
    | some (name, s3) =>
      match s3.drop (spaceCount s3) with
      | '(' :: s4 =>
        match s4.drop ((s4.takeWhile (fun c => !(c = ')'))).length) with
        | ')' :: s5 =>
          match s5.drop (spaceCount s5) with
          | '{' :: _ =>
            some (name, 8 + spaceCount s1 + name.length + spaceCount s3 + 1
              + (s4.takeWhile (fun c => !(c = ')'))).length + 1 + spaceCount s5 + 1)
          | _ => none
        | _ => none
      | _ => none

/-- Match of `/evalops_test\s*\(\s*({[\s\S]*?})\s*,\s*function[^{]*{/` at the
head of `s`: returns the captured group (braces included) and the match
length. -/
def callMatchHere (s : Str) : Option (Str × Nat) :=
  match dropLit ("evalops_test".data) s with
  | none => none
  | some s1 =>
    match s1.drop (spaceCount s1) with
    | '(' :: s2 =>
      match s2.drop (spaceCount s2) with
      | '{' :: s3 =>
        match lazyBody callCont s3 with
        | none => none
        | some (inner, m) =>
          some ('{' :: inner ++ ['}'],
            12 + spaceCount s1 + 1 + spaceCount s2 + 1 + inner.length + 1 + m)
      | _ => none
    | _ => none

/-- The `while ((m = re.exec(content)) !== null)` idiom over a global regex:
repeatedly find the leftmost match at or after the current index, record the
capture together with the match's start index, and resume at the match's
end. -/
def execAllAux (m : Str → Option (α × Nat)) : Nat → Str → Nat → List (α × Nat)
  | 0, _, _ => []
  | _ + 1, [], _ => []
  | fuel + 1, c :: rest, i =>
    match m (c :: rest) with
    | some (a, n) => (a, i) :: execAllAux m fuel (rest.drop (n - 1)) (i + n)
    | none => execAllAux m fuel rest (i + 1)

/-- All matches of a global regex over a file.  The fuel `content.length`
is never exhausted, because every match of the three patterns below consumes
at least one character. -/
def execAll (m : Str → Option (α × Nat)) (content : Str) : List (α × Nat) :=
  execAllAux m content.length content 0

/-- All decorator-regex matches of a file: `(configStr, index)` pairs. -/
def decoratorScan (content : Str) : List (Str × Nat) :=
  execAll decoratorMatchHere content

/-- All function-regex matches of a file: `(name, index)` pairs. -/
def functionScan (content : Str) : List (Str × Nat) :=
  execAll functionMatchHere content

/-- All call-regex matches of a file: `(configStr, index)` pairs. -/
def callScan (content : Str) : List (Str × Nat) :=
  execAll callMatchHere content

/-! ## Boundary extraction (`extractFunctionBody`, `extractFunctionFromCall`) -/

/-- Phase `!inFunction` of `extractFunctionBody`'s loop: skip forward to the
first `{` (a stray `}` still decrements `braceCount`); returns the text after
that `{` and the incremented count. -/
def findOpenBrace : Str → Int → Option (Str × Int)
  | [], _ => none
  | c :: rest, bc =>
    if c = '{' then some (rest, bc + 1)
    else if c = '}' then findOpenBrace rest (bc - 1)
    else findOpenBrace rest bc

/-- Phase `inFunction` of `extractFunctionBody`'s loop: collect characters
until a `}` brings the brace count to exactly `0`; `none` when the text ends
first. -/
def scanToClose : Str → Int → Option Str
  | [], _ => none
  | c :: rest, bc =>
    if c = '{' then (scanToClose rest (bc + 1)).map (fun l => c :: l)
    else if c = '}' then
      if bc - 1 = 0 then some [c]
      else (scanToClose rest (bc - 1)).map (fun l => c :: l)
    else (scanToClose rest bc).map (fun l => c :: l)

/-- `SimpleTestDiscovery.extractFunctionBody`: starting at `startIndex`,
find the first `{` and return the substring up to and including its matching
`}` (by raw brace counting); the empty string when no balanced block
closes. -/
def extractFunctionBody (content : Str) (startIndex : Nat) : Str :=
  match findOpenBrace (content.drop startIndex) 0 with
  | none => []
  | some (rest, bc) =>
    match scanToClose rest bc with
    | none => []
    | some body => '{' :: body

/-- The whitespace-skipping inner loop of `extractFunctionFromCall`: index of
the first character after the comma that is not a space, tab or newline
(`-1`, leaving `functionStart` unset, when none exists). -/
def firstNonWs : Str → Nat → Int
  | [], _ => -1
  | c :: rest, j =>
    if c = ' ' || c = '\t' || c = '\n' then firstNonWs rest (j + 1) else (j : Int)

/-- JavaScript's `String.prototype.substring`: clamps both indices into
`[0, length]` and swaps them when out of order. -/
def jsSubstring (content : Str) (a b : Int) : Str :=
  let a' := min a.toNat content.length
  let b' := min b.toNat content.length
  (content.drop (min a' b')).take (max a' b' - min a' b')

/-- The main loop of `extractFunctionFromCall`: `i` is the absolute index of
the head of the remaining text, `pc` the parenthesis count, `fc` the
`foundComma` flag and `fs` the `functionStart` index (initially `-1`). -/
def extractCallAux (content : Str) : Str → Nat → Int → Bool → Int → Str
  | [], _, _, _, _ => []
  | c :: rest, i, pc, fc, fs =>
    if c = '(' then extractCallAux content rest (i + 1) (pc + 1) fc fs
    else if c = ')' then
      if pc - 1 = 0 then jsSubstring content fs (i : Int)
      else extractCallAux content rest (i + 1) (pc - 1) fc fs
    else if c = ',' ∧ pc = 1 ∧ fc = false then
      extractCallAux content rest (i + 1) pc true (firstNonWs rest (i + 1))
    else extractCallAux content rest (i + 1) pc fc fs

/-- `SimpleTestDiscovery.extractFunctionFromCall`: find the second argument
of the call starting at `callIndex` by locating the first comma at
parenthesis depth 1, skipping spaces/tabs/newlines after it, and slicing up
to the parenthesis that closes the call (exclusive). -/
def extractFunctionFromCall (content : Str) (callIndex : Nat) : Str :=
  extractCallAux content (content.drop callIndex) callIndex 0 false (-1)

/-- Specification-side predicate: scanning `l` from brace count `d`, no `}`
ever brings the count to exactly `0` (so `scanToClose` does not stop inside
`l`). -/
def braceSafe : Str → Int → Bool
  | [], _ => true
  | c :: l, d =>
    if c = '{' then braceSafe l (d + 1)
    else if c = '}' then decide (d - 1 ≠ 0) && braceSafe l (d - 1)
    else braceSafe l d

/-- The brace count after scanning `l` from count `d`. -/
def braceFinal : Str → Int → Int
  | [], d => d
  | c :: l, d =>
    if c = '{' then braceFinal l (d + 1)
    else if c = '}' then braceFinal l (d - 1)
    else braceFinal l d

/-- Specification-side predicate: scanning `l` from parenthesis count `d`,
no `)` ever brings the count to exactly `0` (so `extractCallAux` does not
stop inside `l`). -/
def callSegSafe : Str → Int → Bool
  | [], _ => true
  | c :: l, d =>
    if c = '(' then callSegSafe l (d + 1)
    else if c = ')' then decide (d - 1 ≠ 0) && callSegSafe l (d - 1)
    else callSegSafe l d

/-- The parenthesis count after scanning `l` from count `d`. -/
def callSegFinal : Str → Int → Int
  | [], d => d
  | c :: l, d =>
    if c = '(' then callSegFinal l (d + 1)
    else if c = ')' then callSegFinal l (d - 1)
    else callSegFinal l d

/-! ## Data model and record assembly -/

/-- The key of the always-present `code` variable. -/
def codeKey : Str := "code".data

/-- The structured value of a successfully evaluated configuration literal.
Assertion specifications, variable values and prompts are carried through
discovery opaquely; they are modelled as strings. -/
structure Config where
  description : Option Str := none
  vars : List (Str × Str) := []
  asserts : Option (List Str) := none
  prompt : Option Str := none
  skip : Option Bool := none
  tags : Option (List Str) := none
deriving DecidableEq, Repr

structure TestCaseMetadata where
  filePath : Str
  functionName : Str
  lineNumber : Nat
  description : Option Str
  tags : Option (List Str)
deriving DecidableEq, Repr

structure ParsedTestCase where
  description : Str
  vars : List (Str × Str)
  assert : List Str
  prompt : Option Str
  skip : Option Bool
  tags : Option (List Str)
  metadata : TestCaseMetadata
deriving DecidableEq, Repr

/-- JavaScript `x || fallback` on an optional string: an absent or empty
(falsy) string selects the fallback. -/
def jsOrStr : Option Str → Str → Str
  | some s, fb => if s = [] then fb else s
  | none, fb => fb

/-- `content.substring(0, index).split('\n').length`: the 1-based line
number of `index`. -/
def lineNumberAt (content : Str) (i : Nat) : Nat := (content.take i).count '\n' + 1

/-- Property lookup in an insertion-ordered object: a later entry with the
same key overrides an earlier one, as in a JavaScript object built by
spreading. -/
def objGet (l : List (Str × Str)) (k : Str) : Option Str :=
  l.foldl (fun acc p => if p.1 = k then some p.2 else acc) none

/-- The record pushed for a decorator paired with the function `fn`
(`simple-test-discovery.ts` lines 57-80). -/
def mkDecoratorCase (filePath content : Str) (cfg : Config) (idx : Nat)
    (fn : Str × Nat) : ParsedTestCase :=
  { description := jsOrStr cfg.description ("Test case for ".data ++ fn.1)
    vars := (codeKey, extractFunctionBody content fn.2) :: cfg.vars
    assert := cfg.asserts.getD []
    prompt := cfg.prompt
    skip := cfg.skip
    tags := cfg.tags
    metadata := { filePath := filePath, functionName := fn.1,
                  lineNumber := lineNumberAt content idx,
                  description := cfg.description, tags := cfg.tags } }

/-- The record pushed for an `evalops_test(...)` call site
(`simple-test-discovery.ts` lines 92-115). -/
def mkCallCase (filePath content : Str) (cfg : Config) (idx : Nat) :
    ParsedTestCase :=
  { description := jsOrStr cfg.description ("Inline test case".data)
    vars := (codeKey, extractFunctionFromCall content idx) :: cfg.vars
    assert := cfg.asserts.getD []
    prompt := cfg.prompt
    skip := cfg.skip
    tags := cfg.tags
    metadata := { filePath := filePath, functionName := "inline_test".data,
                  lineNumber := lineNumberAt content idx,
                  description := cfg.description, tags := cfg.tags } }

/-- `SimpleTestDiscovery.parseTestFile` on an already-read file content:
first collect the decorator matches whose configuration evaluates (the
`try`/`catch` around `new Function` is the `Option`), then pair each with
the first function match at a strictly larger index, then process call
matches the same way; decorator records precede call records. -/
def parseTestFile (ev : Str → Option Config) (filePath content : Str) :
    List ParsedTestCase :=
  let decorators := (decoratorScan content).filterMap
    (fun d => (ev d.1).map (fun cfg => (cfg, d.2)))
  let functions := functionScan content
  let decCases := decorators.filterMap (fun d =>
    (functions.find? (fun f => decide (d.2 < f.2))).map
      (fun fn => mkDecoratorCase filePath content d.1 d.2 fn))
  let callCases := (callScan content).filterMap (fun c =>
    (ev c.1).map (fun cfg => mkCallCase filePath content cfg c.2))
  decCases ++ callCases

/-! ## Getter-aware evaluation model

`new Function('return ' + configStr)()` yields a JavaScript object; each
later property *read* (`config.description`, `config.vars`, …) can itself
execute a getter and throw.  `ConfigG` models one evaluated configuration
object with fallible property reads, and `parseTestFileE` re-embeds
`parseTestFile` with the source's exact `try`/`catch` extents: for
decorators only the literal evaluation is guarded (lines 31-40) and record
construction (lines 57-80) is unguarded, so a throwing read there
propagates out of the parse; for calls the whole construction sits inside
the handler (lines 88-121), so a throwing read there only skips that
declaration. -/

/-- An evaluated configuration object whose property reads may throw. -/
structure ConfigG where
  description : Except Unit (Option Str) := .ok none
  vars : Except Unit (List (Str × Str)) := .ok []
  asserts : Except Unit (Option (List Str)) := .ok none
  prompt : Except Unit (Option Str) := .ok none
  skip : Except Unit (Option Bool) := .ok none
  tags : Except Unit (Option (List Str)) := .ok none

/-- A data-only (getter-free) configuration object. -/
def pureConfigG (cfg : Config) : ConfigG :=
  { description := .ok cfg.description, vars := .ok cfg.vars,
    asserts := .ok cfg.asserts, prompt := .ok cfg.prompt,
    skip := .ok cfg.skip, tags := .ok cfg.tags }

/-- Decorator record construction (lines 57-80), reading the configuration's
properties in source order; any throwing read aborts. -/
def buildDecoratorCase (filePath content : Str) (cfg : ConfigG) (idx : Nat)
    (fn : Str × Nat) : Except Unit ParsedTestCase := do
  let mdDescription ← cfg.description
  let mdTags ← cfg.tags
  let description ← cfg.description
  let vars ← cfg.vars
  let asserts ← cfg.asserts
  let prompt ← cfg.prompt
  let skipFlag ← cfg.skip
  let tags ← cfg.tags
  return { description := jsOrStr description ("Test case for ".data ++ fn.1)
           vars := (codeKey, extractFunctionBody content fn.2) :: vars
           assert := asserts.getD []
           prompt := prompt
           skip := skipFlag
           tags := tags
           metadata := { filePath := filePath, functionName := fn.1,
                         lineNumber := lineNumberAt content idx,
                         description := mdDescription, tags := mdTags } }

/-- Call record construction (lines 94-113), reading the configuration's
properties in source order. -/
def buildCallCase (filePath content : Str) (cfg : ConfigG) (idx : Nat) :
    Except Unit ParsedTestCase := do
  let mdDescription ← cfg.description
  let mdTags ← cfg.tags
  let description ← cfg.description
  let vars ← cfg.vars
  let asserts ← cfg.asserts
  let prompt ← cfg.prompt
  let skipFlag ← cfg.skip
  let tags ← cfg.tags
  return { description := jsOrStr description ("Inline test case".data)
           vars := (codeKey, extractFunctionFromCall content idx) :: vars
           assert := asserts.getD []
           prompt := prompt
           skip := skipFlag
           tags := tags
           metadata := { filePath := filePath, functionName := "inline_test".data,
                         lineNumber := lineNumberAt content idx,
                         description := mdDescription, tags := mdTags } }

/-- The decorator pairing loop (lines 54-82): construction is *outside* any
handler, so a throwing read propagates. -/
def decLoop (filePath content : Str) (functions : List (Str × Nat)) :
    List (ConfigG × Nat) → Except Unit (List ParsedTestCase)
  | [] => .ok []
  | d :: rest =>
    match functions.find? (fun f => decide (d.2 < f.2)) with
    | none => decLoop filePath content functions rest
    | some fn => do
      let tc ← buildDecoratorCase filePath content d.1 d.2 fn
      let others ← decLoop filePath content functions rest
      return tc :: others

/-- The call loop (lines 88-121): evaluation *and* construction are inside
the per-declaration handler, so any failure only skips that declaration. -/
def callLoop (ev : Str → Option ConfigG) (filePath content : Str) :
    List (Str × Nat) → List ParsedTestCase
  | [] => []
  | c :: rest =>
    match ev c.1 with
    | none => callLoop ev filePath content rest
    | some cfg =>
      match buildCallCase filePath content cfg c.2 with
      | .error _ => callLoop ev filePath content rest
      | .ok tc => tc :: callLoop ev filePath content rest

/-- `parseTestFile` under the getter-aware model: decorator literal
evaluation failures are skipped (lines 31-40), decorator record
construction may propagate an exception, and call declarations are fully
guarded. -/
def parseTestFileE (ev : Str → Option ConfigG) (filePath content : Str) :
    Except Unit (List ParsedTestCase) :=
  match decLoop filePath content (functionScan content)
      ((decoratorScan content).filterMap (fun d => (ev d.1).map (fun cfg => (cfg, d.2)))) with
  | .error e => .error e
  | .ok decCases => .ok (decCases ++ callLoop ev filePath content (callScan content))

/-! ## File selection

`discoverTestFiles` delegates matching to the external `glob` package; the
matcher below is modelled from that package's documented semantics (`*` and
`?` within a path segment, `**` spanning directory segments but requiring at
least one segment when trailing, `{a,b}` brace alternatives expanded before
matching, patterns anchored at the working directory).  The directory
snapshot is the explicit `files` argument. -/

/-- Split a path or pattern into `/`-separated segments. -/
def splitSegs : Str → List Str
  | [] => [[]]
  | c :: rest =>
    let r := splitSegs rest
    if c = '/' then [] :: r
    else
      match r with
      | [] => [[c]]
      | seg :: t => (c :: seg) :: t

/-- Single-segment glob match (`*`, `?`, literal characters), fuelled to
stay structurally recursive; `globPatternMatch` supplies sufficient fuel. -/
def globSegMatchF : Nat → Str → Str → Bool
  | 0, _, _ => false
  | fuel + 1, p, s =>
    match p with
    | [] => s.isEmpty
    | c :: p' =>
      if c = '*' then
        globSegMatchF fuel p' s ||
          (match s with
           | [] => false
           | _ :: t => globSegMatchF fuel (c :: p') t)
      else
        match s with
        | [] => false
        | d :: t => (c = '?' || c = d) && globSegMatchF fuel p' t

/-- Segment-list glob match with `**` spanning segments. -/
def globSegsMatchF : Nat → List Str → List Str → Bool
  | 0, _, _ => false
  | fuel + 1, ps, segs =>
    match ps with
    | [] => segs.isEmpty
    | p :: ps' =>
      if p = "**".data then
        match ps', segs with
        | [], [] => false
        | [], _ :: _ => true
        | _ :: _, _ =>
          globSegsMatchF fuel ps' segs ||
            (match segs with
             | [] => false
             | _ :: t => globSegsMatchF fuel (p :: ps') t)
      else
        match segs with
        | [] => false
        | sg :: t => globSegMatchF (p.length + sg.length + 1) p sg && globSegsMatchF fuel ps' t

/-- Characters up to (exclusive) and after (exclusive) the first occurrence
of `c`. -/
def takeToChar (c : Char) : Str → Option (Str × Str)
  | [] => none
  | d :: rest =>
    if d = c then some ([], rest)
    else (takeToChar c rest).map (fun p => (d :: p.1, p.2))

/-- Split on every comma (for brace alternatives). -/
def splitCommas : Str → List Str
  | [] => [[]]
  | c :: rest =>
    let r := splitCommas rest
    if c = ',' then [] :: r
    else
      match r with
      | [] => [[c]]
      | a :: t => (c :: a) :: t

/-- Expand `{a,b}` alternatives in a glob pattern (no nesting). -/
def expandBracesF : Nat → Str → List Str
  | 0, s => [s]
  | fuel + 1, s =>
    match takeToChar '{' s with
    | none => [s]
    | some (pre, after1) =>
      match takeToChar '}' after1 with
      | none => [s]
      | some (inner, post) =>
        (splitCommas inner).foldr
          (fun a acc => expandBracesF fuel (pre ++ a ++ post) ++ acc) []

def expandBraces (s : Str) : List Str := expandBracesF s.length s

/-- A full glob-pattern match of one path. -/
def globPatternMatch (pat f : Str) : Bool :=
  (expandBraces pat).any (fun p =>
    let ps := splitSegs p
    let fs := splitSegs f
    globSegsMatchF (ps.length + fs.length + 1) ps fs)

/-- The fixed `ignore` list passed to `glob`. -/
def ignorePatterns : List Str :=
  ["node_modules/**".data, "dist/**".data, "build/**".data]

/-- The default inclusion patterns of `discoverTestFiles`. -/
def defaultPatterns : List Str :=
  ["**/*.eval.\x7bjs,ts\x7d".data, "**/*.test.\x7bjs,ts\x7d".data]

/-- `[...new Set(allFiles)]`: deduplication keeping first occurrences in
order. -/
def dedupFirstAux : List Str → List Str → List Str
  | [], _ => []
  | x :: rest, seen =>
    if x ∈ seen then dedupFirstAux rest seen
    else x :: dedupFirstAux rest (x :: seen)

def dedupFirst (l : List Str) : List Str := dedupFirstAux l []

/-- `SimpleTestDiscovery.discoverTestFiles` over a directory snapshot
`files`: per pattern, the matching non-ignored files, concatenated over the
patterns and deduplicated. -/
def discoverTestFiles (files : List Str)
    (patterns : List Str := defaultPatterns) : List Str :=
  dedupFirst (patterns.foldr
    (fun pat acc =>
      files.filter (fun f =>
        globPatternMatch pat f &&
          !(ignorePatterns.any (fun ig => globPatternMatch ig f))) ++ acc)
    [])

/-- `SimpleTestDiscovery.discoverAllTests`: select files, read and parse
each in selection order (a file whose read fails is skipped), and
concatenate the per-file record lists. -/
def discoverAllTests (ev : Str → Option Config) (read : Str → Option Str)
    (files : List Str) (patterns : List Str := defaultPatterns) :
    List ParsedTestCase :=
  (discoverTestFiles files patterns).foldr
    (fun f acc => ((read f).elim [] (fun content => parseTestFile ev f content)) ++ acc)
    []

/-! ## Scanner lemmas -/

theorem execAllAux_index_le (m : Str → Option (α × Nat)) :
    ∀ (fuel : Nat) (s : Str) (i : Nat) (p : α × Nat),
      p ∈ execAllAux m fuel s i → i ≤ p.2 := by
  intro fuel
  induction fuel with
  | zero => intro s i p h; simp [execAllAux] at h
  | succ fuel ih =>
    intro s i p h
    cases s with
    | nil => simp [execAllAux] at h
    | cons c rest =>
      cases hm : m (c :: rest) with
      | none =>
        rw [execAllAux, hm] at h
        exact (Nat.le_succ i).trans (ih rest (i + 1) p h)
      | some an =>
        obtain ⟨a, n⟩ := an
        rw [execAllAux, hm] at h
        rcases List.mem_cons.mp h with h | h
        · subst h; exact Nat.le_refl _
        · exact (Nat.le_add_right i n).trans (ih _ _ p h)

theorem execAllAux_chain (m : Str → Option (α × Nat))
    (hm : ∀ s a n, m s = some (a, n) → 1 ≤ n) :
    ∀ (fuel : Nat) (s : Str) (i : Nat),
      List.Chain' (fun p q => p.2 < q.2) (execAllAux m fuel s i) := by
  intro fuel
  induction fuel with
  | zero => intro s i; simp [execAllAux]
  | succ fuel ih =>
    intro s i
    cases s with
    | nil => simp [execAllAux]
    | cons c rest =>
      cases hmm : m (c :: rest) with
      | none => rw [execAllAux, hmm]; exact ih rest (i + 1)
      | some an =>
        obtain ⟨a, n⟩ := an
        rw [execAllAux, hmm]
        refine (ih _ _).cons' ?_
        intro q hq
        have hq' : q ∈ execAllAux m fuel (rest.drop (n - 1)) (i + n) :=
          List.mem_of_mem_head? hq
        have h1 : i + n ≤ q.2 := execAllAux_index_le m _ _ _ _ hq'
        have h2 : 1 ≤ n := hm _ _ _ hmm
        omega

theorem decoratorMatchHere_pos {s a : Str} {n : Nat}
    (h : decoratorMatchHere s = some (a, n)) : 1 ≤ n := by
  unfold decoratorMatchHere at h
  repeat' split at h
  all_goals first
    | (simp only [Option.some.injEq, Prod.mk.injEq] at h
       omega)
    | exact absurd h (by simp)

theorem functionMatchHere_pos {s a : Str} {n : Nat}
    (h : functionMatchHere s = some (a, n)) : 1 ≤ n := by
  unfold functionMatchHere at h
  repeat' split at h
  all_goals first
    | (simp only [Option.some.injEq, Prod.mk.injEq] at h
       omega)
    | exact absurd h (by simp)

theorem callMatchHere_pos {s a : Str} {n : Nat}
    (h : callMatchHere s = some (a, n)) : 1 ≤ n := by
  unfold callMatchHere at h
  repeat' split at h
  all_goals first
    | (simp only [Option.some.injEq, Prod.mk.injEq] at h
       omega)
    | exact absurd h (by simp)

theorem decoratorScan_chain (content : Str) :
    List.Chain' (fun p q => p.2 < q.2) (decoratorScan content) :=
  execAllAux_chain _ (fun _ _ _ h => decoratorMatchHere_pos h) _ _ _

theorem functionScan_chain (content : Str) :
    List.Chain' (fun p q => p.2 < q.2) (functionScan content) :=
  execAllAux_chain _ (fun _ _ _ h => functionMatchHere_pos h) _ _ _

theorem callScan_chain (content : Str) :
    List.Chain' (fun p q => p.2 < q.2) (callScan content) :=
  execAllAux_chain _ (fun _ _ _ h => callMatchHere_pos h) _ _ _

theorem functionScan_pairwise (content : Str) :
    List.Pairwise (fun p q : Str × Nat => p.2 < q.2) (functionScan content) := by
  haveI : IsTrans (Str × Nat) (fun p q => p.2 < q.2) :=
    ⟨fun _ _ _ h1 h2 => Nat.lt_trans h1 h2⟩
  exact List.chain'_iff_pairwise.mp (functionScan_chain content)

/-- On a list whose indices are strictly increasing, `find?` with predicate
"index strictly greater than `i`" returns the element of least index among
those, when any exists. -/
theorem find?_gt_min {l : List (Str × Nat)}
    (hl : List.Pairwise (fun p q : Str × Nat => p.2 < q.2) l) (i : Nat)
    {fn : Str × Nat} (h : l.find? (fun f => decide (i < f.2)) = some fn) :
    fn ∈ l ∧ i < fn.2 ∧ ∀ g ∈ l, i < g.2 → fn.2 ≤ g.2 := by
  induction l with
  | nil => simp [List.find?] at h
  | cons hd tl ih =>
    by_cases hp : i < hd.2
    · rw [List.find?_cons_of_pos _ (by simpa using hp)] at h
      obtain rfl : hd = fn := by simpa using h
      refine ⟨List.mem_cons_self _ _, hp, ?_⟩
      intro g hg _
      rcases List.mem_cons.mp hg with rfl | hg
      · exact Nat.le_refl _
      · exact Nat.le_of_lt ((List.pairwise_cons.mp hl).1 g hg)
    · rw [List.find?_cons_of_neg _ (by simpa using hp)] at h
      obtain ⟨hmem, hlt, hmin⟩ := ih (List.pairwise_cons.mp hl).2 h
      refine ⟨List.mem_cons_of_mem _ hmem, hlt, ?_⟩
      intro g hg hig
      rcases List.mem_cons.mp hg with rfl | hg
      · exact absurd hig hp
      · exact hmin g hg hig

/-! ## Object-lookup lemmas -/

theorem objGet_foldl (k : Str) :
    ∀ (l : List (Str × Str)) (acc : Option Str),
      l.foldl (fun a p => if p.1 = k then some p.2 else a) acc
        = (objGet l k).elim acc some := by
  intro l
  induction l with
  | nil => intro acc; simp [objGet]
  | cons p l ih =>
    intro acc
    show (l.foldl _ (if p.1 = k then some p.2 else acc)) = _
    rw [ih]
    have htl : objGet (p :: l) k = (objGet l k).elim (if p.1 = k then some p.2 else none) some := by
      show (l.foldl _ (if p.1 = k then some p.2 else none)) = _
      rw [ih]
    rw [htl]
    cases objGet l k <;> by_cases hp : p.1 = k <;> simp [hp]

theorem objGet_cons (p : Str × Str) (l : List (Str × Str)) (k : Str) :
    objGet (p :: l) k
      = (objGet l k).elim (if p.1 = k then some p.2 else none) some := by
  show (l.foldl _ (if p.1 = k then some p.2 else none)) = _
  rw [objGet_foldl]

theorem objGet_eq_none_of_no_key {l : List (Str × Str)} {k : Str}
    (h : ∀ p ∈ l, p.1 ≠ k) : objGet l k = none := by
  induction l with
  | nil => rfl
  | cons p l ih =>
    rw [objGet_cons, ih (fun q hq => h q (List.mem_cons_of_mem _ hq))]
    simp [h p (List.mem_cons_self _ _)]

/-! ## Structure of `parseTestFile` -/

/-- `parseTestFile` as one pass over the two scans: a declaration's record
is a function of that declaration's own match data (and the file-wide
function list); a declaration whose configuration fails to evaluate, or a
decorator with no following function, contributes nothing. -/
theorem parseTestFile_filterMap (ev : Str → Option Config) (path content : Str) :
    parseTestFile ev path content
      = (decoratorScan content).filterMap (fun d => (ev d.1).bind (fun cfg =>
          ((functionScan content).find? (fun f => decide (d.2 < f.2))).map
            (fun fn => mkDecoratorCase path content cfg d.2 fn)))
        ++ (callScan content).filterMap (fun c =>
            (ev c.1).map (fun cfg => mkCallCase path content cfg c.2)) := by
  show List.filterMap _ (List.filterMap _ _) ++ _ = _
  rw [List.filterMap_filterMap]
  congr 1
  apply List.filterMap_congr
  intro d _
  cases ev d.1 <;> simp

/-- Every produced record originates from a decorator match or a call match
whose configuration evaluated. -/
theorem mem_parseTestFile {ev : Str → Option Config} {path content : Str}
    {tc : ParsedTestCase} (h : tc ∈ parseTestFile ev path content) :
    (∃ d ∈ decoratorScan content, ∃ cfg fn,
        ev d.1 = some cfg
        ∧ (functionScan content).find? (fun f => decide (d.2 < f.2)) = some fn
        ∧ tc = mkDecoratorCase path content cfg d.2 fn)
    ∨ (∃ c ∈ callScan content, ∃ cfg,
        ev c.1 = some cfg ∧ tc = mkCallCase path content cfg c.2) := by
  rw [parseTestFile_filterMap] at h
  rcases List.mem_append.mp h with h | h
  · left
    obtain ⟨d, hd, hfd⟩ := List.mem_filterMap.mp h
    cases hev : ev d.1 with
    | none => rw [hev] at hfd; simp at hfd
    | some cfg =>
      rw [hev] at hfd
      simp only [Option.some_bind] at hfd
      obtain ⟨fn, hfn, htc⟩ := Option.map_eq_some'.mp hfd
      exact ⟨d, hd, cfg, fn, hev, hfn, htc.symm⟩
  · right
    obtain ⟨c, hc, hfc⟩ := List.mem_filterMap.mp h
    obtain ⟨cfg, hev, htc⟩ := Option.map_eq_some'.mp hfc
    exact ⟨c, hc, cfg, hev, htc.symm⟩

/-! ## Correctness of `extractFunctionBody` on well-shaped input -/

theorem findOpenBrace_append {l : Str} (h : ∀ c ∈ l, c ≠ '{' ∧ c ≠ '}') :
    ∀ (s : Str) (bc : Int), findOpenBrace (l ++ s) bc = findOpenBrace s bc := by
  induction l with
  | nil => intro s bc; rfl
  | cons c l ih =>
    intro s bc
    obtain ⟨h1, h2⟩ := h c (List.mem_cons_self _ _)
    show findOpenBrace (c :: (l ++ s)) bc = _
    rw [findOpenBrace, if_neg h1, if_neg h2]
    exact ih (fun d hd => h d (List.mem_cons_of_mem _ hd)) s bc

theorem scanToClose_append {l : Str} :
    ∀ (d : Int) (s : Str), braceSafe l d = true →
      scanToClose (l ++ s) d = (scanToClose s (braceFinal l d)).map (fun b => l ++ b) := by
  induction l with
  | nil =>
    intro d s _
    simp [braceFinal]
  | cons c l ih =>
    intro d s hsafe
    by_cases h1 : c = '{'
    · subst h1
      rw [braceSafe, if_pos rfl] at hsafe
      show scanToClose ('{' :: (l ++ s)) d = _
      rw [scanToClose, if_pos rfl, ih (d + 1) s hsafe, braceFinal, if_pos rfl]
      cases scanToClose s (braceFinal l (d + 1)) <;> simp
    · by_cases h2 : c = '}'
      · subst h2
        rw [braceSafe, if_neg (by decide), if_pos rfl, Bool.and_eq_true, decide_eq_true_eq]
          at hsafe
        obtain ⟨hne, hsafe⟩ := hsafe
        show scanToClose ('}' :: (l ++ s)) d = _
        rw [scanToClose, if_neg (by decide), if_pos rfl, if_neg hne, ih (d - 1) s hsafe,
          braceFinal, if_neg (by decide), if_pos rfl]
        cases scanToClose s (braceFinal l (d - 1)) <;> simp
      · rw [braceSafe, if_neg h1, if_neg h2] at hsafe
        show scanToClose (c :: (l ++ s)) d = _
        rw [scanToClose, if_neg h1, if_neg h2, ih d s hsafe,
          braceFinal, if_neg h1, if_neg h2]
        cases scanToClose s (braceFinal l d) <;> simp

/-- On a function text of the shape `fnPre { inner } post` — no braces in
`fnPre`, `inner` never closing the outer brace and brace-balanced —
`extractFunctionBody` returns exactly `{ inner }`. -/
theorem extractFunctionBody_shape (content : Str) (idx : Nat)
    (fnPre inner post : Str)
    (hshape : content.drop idx = fnPre ++ '{' :: (inner ++ '}' :: post))
    (hpre : ∀ c ∈ fnPre, c ≠ '{' ∧ c ≠ '}')
    (hsafe : braceSafe inner 1 = true) (hfin : braceFinal inner 1 = 1) :
    extractFunctionBody content idx = '{' :: (inner ++ ['}']) := by
  unfold extractFunctionBody
  rw [hshape, findOpenBrace_append hpre, findOpenBrace, if_pos rfl]
  show (match scanToClose (inner ++ '}' :: post) ((0 : Int) + 1) with
        | none => ([] : Str)
        | some body => '{' :: body) = '{' :: (inner ++ ['}'])
  rw [(show ((0 : Int) + 1) = 1 by norm_num), scanToClose_append 1 ('}' :: post) hsafe, hfin,
    scanToClose, if_neg (by decide), if_pos rfl, if_pos (by norm_num)]
  rfl

/-! ## Correctness of `extractFunctionFromCall` on well-shaped input -/

theorem firstNonWs_append {ws : Str} (h : ∀ c ∈ ws, c = ' ' ∨ c = '\t' ∨ c = '\n') :
    ∀ (a : Char), (a ≠ ' ' ∧ a ≠ '\t' ∧ a ≠ '\n') →
      ∀ (t : Str) (j : Nat), firstNonWs (ws ++ a :: t) j = ((j + ws.length : Nat) : Int) := by
  induction ws with
  | nil =>
    intro a ha t j
    show firstNonWs (a :: t) j = _
    rw [firstNonWs, if_neg (by simp [ha.1, ha.2.1, ha.2.2])]
    norm_num
  | cons c ws ih =>
    intro a ha t j
    have hc : (c = ' ' || c = '\t' || c = '\n') = true := by
      rcases h c (List.mem_cons_self _ _) with h' | h' | h' <;> simp [h']
    show firstNonWs (c :: (ws ++ a :: t)) j = _
    rw [firstNonWs, if_pos hc, ih (fun d hd => h d (List.mem_cons_of_mem _ hd)) a ha t (j + 1)]
    simp only [List.length_cons]
    omega

theorem jsSubstring_nat (content : Str) (n1 n2 : Nat)
    (h1 : n1 ≤ n2) (h2 : n2 ≤ content.length) :
    jsSubstring content (n1 : Int) (n2 : Int) = (content.drop n1).take (n2 - n1) := by
  show (content.drop
      (min (min (n1 : Int).toNat content.length) (min (n2 : Int).toNat content.length))).take
      (max (min (n1 : Int).toNat content.length) (min (n2 : Int).toNat content.length)
        - min (min (n1 : Int).toNat content.length) (min (n2 : Int).toNat content.length))
      = (content.drop n1).take (n2 - n1)
  rw [Int.toNat_natCast, Int.toNat_natCast,
    min_eq_left (h1.trans h2), min_eq_left h2, min_eq_left h1, max_eq_right h1]

/-- Characters of the first argument (no parentheses, no commas) are skipped
by the main loop while `foundComma` is still false. -/
theorem extractCallAux_skipArg1 (content : Str) {l : Str}
    (h : ∀ c ∈ l, c ≠ '(' ∧ c ≠ ')' ∧ c ≠ ',') :
    ∀ (s : Str) (i : Nat) (pc : Int) (fs : Int),
      extractCallAux content (l ++ s) i pc false fs
        = extractCallAux content s (i + l.length) pc false fs := by
  induction l with
  | nil => intro s i pc fs; rfl
  | cons c l ih =>
    intro s i pc fs
    obtain ⟨h1, h2, h3⟩ := h c (List.mem_cons_self _ _)
    show extractCallAux content (c :: (l ++ s)) i pc false fs = _
    rw [extractCallAux, if_neg h1, if_neg h2, if_neg (by simp [h3]),
      ih (fun d hd => h d (List.mem_cons_of_mem _ hd))]
    congr 1
    simp only [List.length_cons]
    omega

/-- After the comma has been found, a parenthesis-safe segment is skipped by
the main loop, carrying the parenthesis count to its final value. -/
theorem extractCallAux_skipSeg (content : Str) {l : Str} :
    ∀ (d : Int) (s : Str) (i : Nat) (fs : Int), callSegSafe l d = true →
      extractCallAux content (l ++ s) i d true fs
        = extractCallAux content s (i + l.length) (callSegFinal l d) true fs := by
  induction l with
  | nil =>
    intro d s i fs _
    show extractCallAux content s i d true fs = _
    rw [callSegFinal]
    norm_num
  | cons c l ih =>
    intro d s i fs hsafe
    by_cases h1 : c = '('
    · subst h1
      rw [callSegSafe, if_pos rfl] at hsafe
      show extractCallAux content ('(' :: (l ++ s)) i d true fs = _
      rw [extractCallAux, if_pos rfl, ih (d + 1) s (i + 1) fs hsafe,
        callSegFinal, if_pos rfl]
      congr 1
      simp only [List.length_cons]
      omega
    · by_cases h2 : c = ')'
      · subst h2
        rw [callSegSafe, if_neg (by decide), if_pos rfl, Bool.and_eq_true,
          decide_eq_true_eq] at hsafe
        obtain ⟨hne, hsafe⟩ := hsafe
        show extractCallAux content (')' :: (l ++ s)) i d true fs = _
        rw [extractCallAux, if_neg (by decide), if_pos rfl, if_neg hne,
          ih (d - 1) s (i + 1) fs hsafe, callSegFinal, if_neg (by decide), if_pos rfl]
        congr 1
        simp only [List.length_cons]
        omega
      · rw [callSegSafe, if_neg h1, if_neg h2] at hsafe
        show extractCallAux content (c :: (l ++ s)) i d true fs = _
        rw [extractCallAux, if_neg h1, if_neg h2, if_neg (by simp), ih d s (i + 1) fs hsafe,
          callSegFinal, if_neg h1, if_neg h2]
        congr 1
        simp only [List.length_cons]
        omega

/-! ## Ordering lemmas -/

theorem pairwise_filterMap_transfer {α β : Type} {R : α → α → Prop} {S : β → β → Prop}
    (f : α → Option β)
    (H : ∀ a b, R a b → ∀ c, f a = some c → ∀ d, f b = some d → S c d) :
    ∀ {l : List α}, l.Pairwise R → (l.filterMap f).Pairwise S := by
  intro l
  induction l with
  | nil => intro _; simp
  | cons a l ih =>
    intro hp
    obtain ⟨ha, hl⟩ := List.pairwise_cons.mp hp
    rw [List.filterMap_cons]
    cases hfa : f a with
    | none => exact ih hl
    | some c =>
      refine List.pairwise_cons.mpr ⟨?_, ih hl⟩
      intro d hd
      obtain ⟨b, hb, hfb⟩ := List.mem_filterMap.mp hd
      exact H a b (ha b hb) c hfa d hfb

theorem lineNumberAt_mono (content : Str) {i j : Nat} (h : i ≤ j) :
    lineNumberAt content i ≤ lineNumberAt content j := by
  unfold lineNumberAt
  have hsub : List.Sublist (content.take i) (content.take j) := by
    have : (content.take j).take i = content.take i := by
      rw [List.take_take, min_eq_left h]
    rw [← this]
    exact List.take_sublist _ _
  exact Nat.add_le_add_right (hsub.count_le '\n') 1

theorem foldr_append_eq_flatten {α β : Type} (g : α → List β) :
    ∀ l : List α, l.foldr (fun x acc => g x ++ acc) [] = (l.map g).flatten := by
  intro l
  induction l with
  | nil => rfl
  | cons x l ih => simp [List.foldr_cons, ih]

/-! ## File-selection lemmas -/

theorem mem_dedupFirstAux :
    ∀ (l seen : List Str) (x : Str),
      x ∈ dedupFirstAux l seen ↔ x ∈ l ∧ x ∉ seen := by
  intro l
  induction l with
  | nil => intro seen x; simp [dedupFirstAux]
  | cons y l ih =>
    intro seen x
    rw [dedupFirstAux]
    by_cases hy : y ∈ seen
    · rw [if_pos hy, ih]
      constructor
      · rintro ⟨hx, hxs⟩
        exact ⟨List.mem_cons_of_mem _ hx, hxs⟩
      · rintro ⟨hx, hxs⟩
        rcases List.mem_cons.mp hx with rfl | hx
        · exact absurd hy hxs
        · exact ⟨hx, hxs⟩
    · rw [if_neg hy]
      constructor
      · intro hx
        rcases List.mem_cons.mp hx with rfl | hx
        · exact ⟨List.mem_cons_self _ _, hy⟩
        · obtain ⟨h1, h2⟩ := (ih (y :: seen) x).mp hx
          exact ⟨List.mem_cons_of_mem _ h1, fun hs => h2 (List.mem_cons_of_mem _ hs)⟩
      · rintro ⟨hx, hxs⟩
        rcases List.mem_cons.mp hx with rfl | hx
        · exact List.mem_cons_self _ _
        · by_cases hxy : x = y
          · subst hxy; exact List.mem_cons_self _ _
          · exact List.mem_cons_of_mem _
              ((ih (y :: seen) x).mpr ⟨hx, by simp [hxy, hxs]⟩)

theorem nodup_dedupFirstAux :
    ∀ (l seen : List Str), (dedupFirstAux l seen).Nodup := by
  intro l
  induction l with
  | nil => intro seen; simp [dedupFirstAux]
  | cons y l ih =>
    intro seen
    rw [dedupFirstAux]
    by_cases hy : y ∈ seen
    · rw [if_pos hy]; exact ih seen
    · rw [if_neg hy]
      refine List.nodup_cons.mpr ⟨?_, ih (y :: seen)⟩
      intro hmem
      exact ((mem_dedupFirstAux l (y :: seen) y).mp hmem).2 (List.mem_cons_self _ _)

theorem mem_foldr_append {α β : Type} (g : α → List β) (l : List α) (x : β) :
    x ∈ l.foldr (fun a acc => g a ++ acc) [] ↔ ∃ a ∈ l, x ∈ g a := by
  induction l with
  | nil => simp
  | cons a l ih => simp [List.foldr_cons, List.mem_append, ih]

theorem mem_discoverTestFiles (files patterns : List Str) (f : Str) :
    f ∈ discoverTestFiles files patterns ↔
      f ∈ files
      ∧ (∃ p ∈ patterns, globPatternMatch p f = true)
      ∧ ∀ ig ∈ ignorePatterns, globPatternMatch ig f = false := by
  unfold discoverTestFiles dedupFirst
  rw [mem_dedupFirstAux, mem_foldr_append]
  simp only [List.mem_filter, List.not_mem_nil, not_false_eq_true, and_true,
    Bool.and_eq_true, Bool.not_eq_true', List.any_eq_false]
  constructor
  · rintro ⟨p, hp, hf, hm, hig⟩
    exact ⟨hf, ⟨p, hp, hm⟩, fun ig h => by simpa using hig ig h⟩
  · rintro ⟨hf, ⟨p, hp, hm⟩, hig⟩
    exact ⟨p, hp, hf, hm, fun ig h => by simpa using hig ig h⟩

/-! ## Determinism of `discoverAllTests` -/

/-! ## Further object-lookup corollaries -/

theorem objGet_code_cons (x : Str) (l : List (Str × Str)) :
    objGet ((codeKey, x) :: l) codeKey = some ((objGet l codeKey).getD x) := by
  rw [objGet_cons]
  cases objGet l codeKey <;> simp

theorem objGet_other_cons (x : Str) (l : List (Str × Str)) (k : Str)
    (hk : k ≠ codeKey) : objGet ((codeKey, x) :: l) k = objGet l k := by
  rw [objGet_cons]
  cases objGet l k with
  | none => simp [Ne.symm hk]
  | some v => simp

/-! ## The getter-aware parse against the data-only parse -/

theorem buildDecoratorCase_pure (p c : Str) (cfg : Config) (i : Nat) (fn : Str × Nat) :
    buildDecoratorCase p c (pureConfigG cfg) i fn = .ok (mkDecoratorCase p c cfg i fn) := rfl

theorem buildCallCase_pure (p c : Str) (cfg : Config) (i : Nat) :
    buildCallCase p c (pureConfigG cfg) i = .ok (mkCallCase p c cfg i) := rfl

theorem decLoop_cons (p c : Str) (fns : List (Str × Nat)) (cfg : ConfigG) (i : Nat)
    (l : List (ConfigG × Nat)) :
    decLoop p c fns ((cfg, i) :: l)
      = (match fns.find? (fun f => decide (i < f.2)) with
         | none => decLoop p c fns l
         | some fn => do
             let tc ← buildDecoratorCase p c cfg i fn
             let others ← decLoop p c fns l
             return tc :: others) := rfl

theorem callLoop_cons_none (ev : Str → Option ConfigG) (p c : Str) (cm : Str × Nat)
    (l : List (Str × Nat)) (h : ev cm.1 = none) :
    callLoop ev p c (cm :: l) = callLoop ev p c l := by
  rw [callLoop, h]

theorem callLoop_cons_some (ev : Str → Option ConfigG) (p c : Str) (cm : Str × Nat)
    (l : List (Str × Nat)) (cfg : ConfigG) (h : ev cm.1 = some cfg) :
    callLoop ev p c (cm :: l)
      = (match buildCallCase p c cfg cm.2 with
         | .error _ => callLoop ev p c l
         | .ok tc => tc :: callLoop ev p c l) := by
  rw [callLoop, h]

theorem decLoop_map_pure (p c : Str) (fns : List (Str × Nat)) :
    ∀ l : List (Config × Nat),
      decLoop p c fns (l.map (fun d => (pureConfigG d.1, d.2)))
        = .ok (l.filterMap (fun d =>
            (fns.find? (fun f => decide (d.2 < f.2))).map
              (fun fn => mkDecoratorCase p c d.1 d.2 fn))) := by
  intro l
  induction l with
  | nil => rfl
  | cons d l ih =>
    show decLoop p c fns ((pureConfigG d.1, d.2) :: l.map _) = _
    rw [decLoop_cons p c fns (pureConfigG d.1) d.2, List.filterMap_cons]
    cases hf : fns.find? (fun f => decide (d.2 < f.2)) with
    | none => rw [ih]; rfl
    | some fn =>
      show (do
          let tc ← buildDecoratorCase p c (pureConfigG d.1) d.2 fn
          let others ← decLoop p c fns (l.map (fun d : Config × Nat => (pureConfigG d.1, d.2)))
          return tc :: others)
        = Except.ok (mkDecoratorCase p c d.1 d.2 fn :: l.filterMap (fun d =>
            (fns.find? (fun f => decide (d.2 < f.2))).map
              (fun fn => mkDecoratorCase p c d.1 d.2 fn)))
      rw [ih]
      rfl

theorem callLoop_map_pure (ev : Str → Option Config) (p c : Str) :
    ∀ l : List (Str × Nat),
      callLoop (fun s => (ev s).map pureConfigG) p c l
        = l.filterMap (fun cm => (ev cm.1).map (fun cfg => mkCallCase p c cfg cm.2)) := by
  intro l
  induction l with
  | nil => rfl
  | cons cm l ih =>
    rw [List.filterMap_cons]
    cases hev : ev cm.1 with
    | none =>
      rw [callLoop_cons_none _ p c cm l (by simp [hev]), ih]
      rfl
    | some cfg =>
      rw [callLoop_cons_some _ p c cm l (pureConfigG cfg) (by simp [hev]),
        buildCallCase_pure, ih]
      rfl

theorem pure_decorators (ev : Str → Option Config) (content : Str) :
    (decoratorScan content).filterMap
        (fun d => (((ev d.1).map pureConfigG)).map (fun cfg => (cfg, d.2)))
      = ((decoratorScan content).filterMap
          (fun d => (ev d.1).map (fun cfg => (cfg, d.2)))).map
          (fun d => (pureConfigG d.1, d.2)) := by
  rw [List.map_filterMap]
  apply List.filterMap_congr
  intro d _
  cases ev d.1 <;> simp

theorem callLoop_none (p c : Str) :
    ∀ l : List (Str × Nat), callLoop (fun _ => none) p c l = [] := by
  intro l
  induction l with
  | nil => rfl
  | cons cm l ih => rw [callLoop_cons_none _ p c cm l rfl, ih]

/-! ## Claims -/

/-- C10 (amended): parsing is total only up to decorator record
construction.  Literal evaluation at both sites is inside a per-declaration
handler whose failure only skips that declaration, and a call declaration's
whole record construction is likewise guarded — so with data-only
configurations the getter-aware parse returns exactly the plain parse's
list, an always-failing evaluator yields `[]`, and a file without decorator
matches never raises whatever the call configurations do.  But decorator
record construction is *outside* any handler, so a decorator configuration
whose property read throws makes the parse raise (see the
counterexample). -/
theorem parseTestFile_total :
    (∀ (ev : Str → Option Config) (path content : Str),
        parseTestFileE (fun s => (ev s).map pureConfigG) path content
          = .ok (parseTestFile ev path content))
    ∧ (∀ path content : Str,
        parseTestFileE (fun _ => none) path content = .ok [])
    ∧ (∀ (ev : Str → Option ConfigG) (path content : Str),
        decoratorScan content = [] →
        ∃ l, parseTestFileE ev path content = .ok l) := by
  refine ⟨?_, ?_, ?_⟩
  · intro ev path content
    unfold parseTestFileE
    rw [pure_decorators ev content, decLoop_map_pure, callLoop_map_pure]
    rfl
  · intro path content
    unfold parseTestFileE
    have hd : (decoratorScan content).filterMap
        (fun d => ((none : Option ConfigG)).map (fun cfg => (cfg, d.2))) = [] := by
      simp
    rw [hd, callLoop_none]
    rfl
  · intro ev path content h
    unfold parseTestFileE
    rw [h]
    exact ⟨_, rfl⟩

/-- C2: a declaration — decorator or bare call — whose configuration fails
evaluation produces no record at all, and every other declaration's record
is unchanged.  Part 1: with `ev` failing on the decorator at index `i` and
`ev'` succeeding there (agreeing elsewhere), the `ev` result is exactly the
`ev'` result minus that one decorator's optional record, with all remaining
records identical and in the same order — in particular a malformed
decorator before a valid one leaves the valid one's record untouched.
Part 2: the same with the failing declaration a bare `evalops_test` call. -/
theorem malformed_config_dropped
    (ev ev' : Str → Option Config) (path content : Str) :
    (∀ (ds1 ds2 : List (Str × Nat)) (s : Str) (i : Nat) (cfg : Config),
      decoratorScan content = ds1 ++ (s, i) :: ds2 →
      ev s = none → ev' s = some cfg →
      (∀ d ∈ ds1, ev d.1 = ev' d.1) → (∀ d ∈ ds2, ev d.1 = ev' d.1) →
      (∀ c ∈ callScan content, ev c.1 = ev' c.1) →
      ∃ pre post calls,
        parseTestFile ev path content = pre ++ (post ++ calls)
        ∧ parseTestFile ev' path content
            = pre ++ ((((functionScan content).find? (fun f => decide (i < f.2))).elim []
                (fun fn => [mkDecoratorCase path content cfg i fn])) ++ (post ++ calls)))
    ∧ (∀ (cs1 cs2 : List (Str × Nat)) (s : Str) (i : Nat) (cfg : Config),
      callScan content = cs1 ++ (s, i) :: cs2 →
      ev s = none → ev' s = some cfg →
      (∀ d ∈ decoratorScan content, ev d.1 = ev' d.1) →
      (∀ c ∈ cs1, ev c.1 = ev' c.1) → (∀ c ∈ cs2, ev c.1 = ev' c.1) →
      ∃ decs pre post,
        parseTestFile ev path content = decs ++ (pre ++ post)
        ∧ parseTestFile ev' path content
            = decs ++ (pre ++ (mkCallCase path content cfg i :: post))) := by
  constructor
  · intro ds1 ds2 s i cfg hscan hev hev' h1 h2 hc
    refine ⟨ds1.filterMap (fun d => (ev' d.1).bind (fun cfg' =>
        ((functionScan content).find? (fun f => decide (d.2 < f.2))).map
          (fun fn => mkDecoratorCase path content cfg' d.2 fn))),
      ds2.filterMap (fun d => (ev' d.1).bind (fun cfg' =>
        ((functionScan content).find? (fun f => decide (d.2 < f.2))).map
          (fun fn => mkDecoratorCase path content cfg' d.2 fn))),
      (callScan content).filterMap (fun c =>
        (ev' c.1).map (fun cfg' => mkCallCase path content cfg' c.2)), ?_, ?_⟩
    · have e1 : ds1.filterMap (fun d => (ev d.1).bind (fun cfg' =>
            ((functionScan content).find? (fun f => decide (d.2 < f.2))).map
              (fun fn => mkDecoratorCase path content cfg' d.2 fn)))
          = ds1.filterMap (fun d => (ev' d.1).bind (fun cfg' =>
            ((functionScan content).find? (fun f => decide (d.2 < f.2))).map
              (fun fn => mkDecoratorCase path content cfg' d.2 fn))) :=
        List.filterMap_congr (fun d hd => by rw [h1 d hd])
      have e2 : ds2.filterMap (fun d => (ev d.1).bind (fun cfg' =>
            ((functionScan content).find? (fun f => decide (d.2 < f.2))).map
              (fun fn => mkDecoratorCase path content cfg' d.2 fn)))
          = ds2.filterMap (fun d => (ev' d.1).bind (fun cfg' =>
            ((functionScan content).find? (fun f => decide (d.2 < f.2))).map
              (fun fn => mkDecoratorCase path content cfg' d.2 fn))) :=
        List.filterMap_congr (fun d hd => by rw [h2 d hd])
      have e3 : (callScan content).filterMap (fun c =>
            (ev c.1).map (fun cfg' => mkCallCase path content cfg' c.2))
          = (callScan content).filterMap (fun c =>
            (ev' c.1).map (fun cfg' => mkCallCase path content cfg' c.2)) :=
        List.filterMap_congr (fun c hcm => by rw [hc c hcm])
      rw [parseTestFile_filterMap, hscan, List.filterMap_append, List.filterMap_cons,
        hev, e1, e2, e3]
      simp
    · rw [parseTestFile_filterMap, hscan, List.filterMap_append, List.filterMap_cons, hev']
      cases hf : (functionScan content).find? (fun f => decide (i < f.2)) with
      | none => simp [hf]
      | some fn => simp [hf]
  · intro cs1 cs2 s i cfg hscan hev hev' hd0 h1 h2
    refine ⟨(decoratorScan content).filterMap (fun d => (ev' d.1).bind (fun cfg' =>
        ((functionScan content).find? (fun f => decide (d.2 < f.2))).map
          (fun fn => mkDecoratorCase path content cfg' d.2 fn))),
      cs1.filterMap (fun c => (ev' c.1).map (fun cfg' => mkCallCase path content cfg' c.2)),
      cs2.filterMap (fun c => (ev' c.1).map (fun cfg' => mkCallCase path content cfg' c.2)),
      ?_, ?_⟩
    · have e0 : (decoratorScan content).filterMap (fun d => (ev d.1).bind (fun cfg' =>
            ((functionScan content).find? (fun f => decide (d.2 < f.2))).map
              (fun fn => mkDecoratorCase path content cfg' d.2 fn)))
          = (decoratorScan content).filterMap (fun d => (ev' d.1).bind (fun cfg' =>
            ((functionScan content).find? (fun f => decide (d.2 < f.2))).map
              (fun fn => mkDecoratorCase path content cfg' d.2 fn))) :=
        List.filterMap_congr (fun d hd => by rw [hd0 d hd])
      have e1 : cs1.filterMap (fun c =>
            (ev c.1).map (fun cfg' => mkCallCase path content cfg' c.2))
          = cs1.filterMap (fun c =>
            (ev' c.1).map (fun cfg' => mkCallCase path content cfg' c.2)) :=
        List.filterMap_congr (fun c hcm => by rw [h1 c hcm])
      have e2 : cs2.filterMap (fun c =>
            (ev c.1).map (fun cfg' => mkCallCase path content cfg' c.2))
          = cs2.filterMap (fun c =>
            (ev' c.1).map (fun cfg' => mkCallCase path content cfg' c.2)) :=
        List.filterMap_congr (fun c hcm => by rw [h2 c hcm])
      rw [parseTestFile_filterMap, hscan, List.filterMap_append, List.filterMap_cons,
        hev, e0, e1, e2]
      rfl
    · rw [parseTestFile_filterMap, hscan, List.filterMap_append, List.filterMap_cons, hev']
      rfl

/-- C4 (amended): an annotation is paired with the nearest function match
whose *starting* offset is strictly greater than the annotation's *starting*
offset — not its end offset: the paired function can lie inside the
annotation's own span (see the counterexample).  The function scan is in
strictly increasing offset order, so the first match found is the least;
with no function match after the annotation's start the annotation produces
no record and the parse output consists solely of call records. -/
theorem decorator_pairs_nearest_function (content : Str) (i : Nat) :
    (∀ fn, (functionScan content).find? (fun f => decide (i < f.2)) = some fn →
        fn ∈ functionScan content ∧ i < fn.2
          ∧ ∀ g ∈ functionScan content, i < g.2 → fn.2 ≤ g.2)
    ∧ ((functionScan content).find? (fun f => decide (i < f.2)) = none ↔
        ∀ g ∈ functionScan content, g.2 ≤ i)
    ∧ (∀ (ev : Str → Option Config) (path s : Str) (cfg : Config),
        decoratorScan content = [(s, i)] → ev s = some cfg →
        (functionScan content).find? (fun f => decide (i < f.2)) = none →
        parseTestFile ev path content
          = (callScan content).filterMap (fun c =>
              (ev c.1).map (fun cfg' => mkCallCase path content cfg' c.2))) := by
  refine ⟨fun fn h => find?_gt_min (functionScan_pairwise content) i h, ?_, ?_⟩
  · rw [List.find?_eq_none]
    constructor
    · intro h g hg
      have := h g hg
      simp only [decide_eq_true_eq] at this
      omega
    · intro h g hg
      simp only [decide_eq_true_eq]
      have := h g hg
      omega
  · intro ev path s cfg hdec hev hnone
    rw [parseTestFile_filterMap, hdec]
    simp [hev, hnone]

/-- C4 counterexample: on
`@evalops_test({v: function g() {}}) function real() { }` the annotation
spans `[0, 35)` and the function matches are `g` at offset 18 (inside the
annotation) and `real` at offset 36.  Pairing by the annotation's *end*
offset would select `real`, the only function starting after offset 35; the
code pairs by the *start* offset and produces the record for `g`. -/
theorem decorator_pairs_nearest_function_cex :
    functionScan ("@evalops_test(\x7bv: function g() \x7b\x7d\x7d) function real() \x7b \x7d".data)
      = [("g".data, 18), ("real".data, 36)]
    ∧ decoratorMatchHere
        ("@evalops_test(\x7bv: function g() \x7b\x7d\x7d) function real() \x7b \x7d".data)
      = some ("\x7bv: function g() \x7b\x7d\x7d".data, 35)
    ∧ ((parseTestFile
        (fun s => if s = "\x7bv: function g() \x7b\x7d\x7d".data then some {} else none)
        ("f.ts".data)
        ("@evalops_test(\x7bv: function g() \x7b\x7d\x7d) function real() \x7b \x7d".data)).map
          (fun tc => tc.metadata.functionName))
      = ["g".data]
    ∧ ("g".data : Str) ≠ "real".data ∧ 18 < 35 ∧ 35 ≤ 36 :=
  ⟨by rfl, by rfl, by rfl, by decide, by decide, by decide⟩

/-- C6: discovery is deterministic over a fixed file tree: two runs whose
file reads agree on every selected file produce list-equal results (the
engine holds no state across runs — its output is a function of the
selected files' contents alone). -/
theorem discovery_idempotent (ev : Str → Option Config)
    (read read' : Str → Option Str) (files patterns : List Str)
    (h : ∀ f ∈ discoverTestFiles files patterns, read f = read' f) :
    discoverAllTests ev read files patterns
      = discoverAllTests ev read' files patterns := by
  unfold discoverAllTests
  revert h
  generalize discoverTestFiles files patterns = sel
  intro h
  induction sel with
  | nil => rfl
  | cons f sel ih =>
    simp only [List.foldr_cons]
    rw [h f (List.mem_cons_self _ _), ih (fun g hg => h g (List.mem_cons_of_mem _ hg))]

/-- C1: a file whose only matches are one decorator (with evaluable
configuration not redefining `code`) and whose paired function text is a
well-formed `name(params) { body }` shape yields exactly one record, named
after the paired function, whose `code` variable is the body text with its
enclosing braces. -/
theorem annotated_single_declaration
    (ev : Str → Option Config) (path content s : Str) (i : Nat) (cfg : Config)
    (name : Str) (fidx : Nat) (fnPre inner post : Str)
    (hdec : decoratorScan content = [(s, i)])
    (hev : ev s = some cfg)
    (hcall : callScan content = [])
    (hfn : (functionScan content).find? (fun f => decide (i < f.2)) = some (name, fidx))
    (hshape : content.drop fidx = fnPre ++ '{' :: (inner ++ '}' :: post))
    (hpre : ∀ c ∈ fnPre, c ≠ '{' ∧ c ≠ '}')
    (hsafe : braceSafe inner 1 = true) (hfin : braceFinal inner 1 = 1)
    (hvars : ∀ p ∈ cfg.vars, p.1 ≠ codeKey) :
    ∃ tc, parseTestFile ev path content = [tc]
      ∧ tc.metadata.functionName = name
      ∧ objGet tc.vars codeKey = some ('{' :: (inner ++ ['}'])) := by
  refine ⟨mkDecoratorCase path content cfg i (name, fidx), ?_, rfl, ?_⟩
  · rw [parseTestFile_filterMap, hdec, hcall]
    simp [hev, hfn]
  · show objGet ((codeKey, extractFunctionBody content fidx) :: cfg.vars) codeKey = _
    rw [extractFunctionBody_shape content fidx fnPre inner post hshape hpre hsafe hfin,
      objGet_cons, objGet_eq_none_of_no_key hvars]
    simp

/-- C9: every record's variable map is the `code` entry followed by the
configuration's variables; under JavaScript spread semantics the later
(configuration) entries override, so `code` keeps the extracted text exactly
when the configuration does not name a `code` variable, and every other key
looks up to the configuration's value. -/
theorem code_variable_merge (ev : Str → Option Config) (path content : Str)
    (tc : ParsedTestCase) (h : tc ∈ parseTestFile ev path content) :
    ∃ (cfg : Config) (extracted : Str), tc.vars = (codeKey, extracted) :: cfg.vars
      ∧ (∃ j, extracted = extractFunctionBody content j
            ∨ extracted = extractFunctionFromCall content j)
      ∧ objGet tc.vars codeKey = some ((objGet cfg.vars codeKey).getD extracted)
      ∧ ((∀ p ∈ cfg.vars, p.1 ≠ codeKey) → objGet tc.vars codeKey = some extracted)
      ∧ ∀ k, k ≠ codeKey → objGet tc.vars k = objGet cfg.vars k := by
  rcases mem_parseTestFile h with ⟨d, _, cfg, fn, _, _, rfl⟩ | ⟨c, _, cfg, _, rfl⟩
  · refine ⟨cfg, extractFunctionBody content fn.2, rfl, ⟨fn.2, Or.inl rfl⟩, ?_, ?_, ?_⟩
    · exact objGet_code_cons _ _
    · intro hk
      show objGet ((codeKey, _) :: cfg.vars) codeKey = _
      rw [objGet_cons, objGet_eq_none_of_no_key hk]
      simp
    · intro k hk
      exact objGet_other_cons _ _ k hk
  · refine ⟨cfg, extractFunctionFromCall content c.2, rfl, ⟨c.2, Or.inr rfl⟩, ?_, ?_, ?_⟩
    · exact objGet_code_cons _ _
    · intro hk
      show objGet ((codeKey, _) :: cfg.vars) codeKey = _
      rw [objGet_cons, objGet_eq_none_of_no_key hk]
      simp
    · intro k hk
      exact objGet_other_cons _ _ k hk

/-- C8 (amended): every record's description is non-empty; it equals the
configuration's description whenever that is a non-empty string, and
otherwise (missing *or empty*, both falsy in JavaScript) it is the fallback
of the record's declaration kind: `"Test case for <functionName>"` for a
record built from a decorator match, `"Inline test case"` for a record
built from a bare call match.  The configuration's raw description is
mirrored in `metadata.description`. -/
theorem record_description_fallback (ev : Str → Option Config) (path content : Str)
    (tc : ParsedTestCase) (h : tc ∈ parseTestFile ev path content) :
    tc.description ≠ []
    ∧ ((∃ d, tc.metadata.description = some d ∧ d ≠ [] ∧ tc.description = d)
       ∨ ((tc.metadata.description = none ∨ tc.metadata.description = some [])
          ∧ ((∃ dm ∈ decoratorScan content, ∃ cfg fn,
                ev dm.1 = some cfg
                ∧ (functionScan content).find? (fun f => decide (dm.2 < f.2)) = some fn
                ∧ tc = mkDecoratorCase path content cfg dm.2 fn
                ∧ tc.description = "Test case for ".data ++ tc.metadata.functionName)
             ∨ (∃ cm ∈ callScan content, ∃ cfg,
                ev cm.1 = some cfg
                ∧ tc = mkCallCase path content cfg cm.2
                ∧ tc.description = "Inline test case".data)))) := by
  rcases mem_parseTestFile h with ⟨d, hd, cfg, fn, hev, hfn, rfl⟩ | ⟨c, hc, cfg, hev, rfl⟩
  · show jsOrStr cfg.description _ ≠ [] ∧ _
    cases hdsc : cfg.description with
    | none =>
      exact ⟨by simp [jsOrStr], Or.inr ⟨Or.inl (by simp [mkDecoratorCase, hdsc]),
        Or.inl ⟨d, hd, cfg, fn, hev, hfn, rfl,
          by simp [mkDecoratorCase, jsOrStr, hdsc]⟩⟩⟩
    | some dsc =>
      cases dsc with
      | nil =>
        exact ⟨by simp [jsOrStr], Or.inr ⟨Or.inr (by simp [mkDecoratorCase, hdsc]),
          Or.inl ⟨d, hd, cfg, fn, hev, hfn, rfl,
            by simp [mkDecoratorCase, jsOrStr, hdsc]⟩⟩⟩
      | cons c0 dsc =>
        exact ⟨by simp [jsOrStr], Or.inl ⟨c0 :: dsc, by simp [mkDecoratorCase, hdsc],
          by simp, by simp [mkDecoratorCase, jsOrStr, hdsc]⟩⟩
  · show jsOrStr cfg.description _ ≠ [] ∧ _
    cases hdsc : cfg.description with
    | none =>
      exact ⟨by simp [jsOrStr], Or.inr ⟨Or.inl (by simp [mkCallCase, hdsc]),
        Or.inr ⟨c, hc, cfg, hev, rfl, by simp [mkCallCase, jsOrStr, hdsc]⟩⟩⟩
    | some dsc =>
      cases dsc with
      | nil =>
        exact ⟨by simp [jsOrStr], Or.inr ⟨Or.inr (by simp [mkCallCase, hdsc]),
          Or.inr ⟨c, hc, cfg, hev, rfl, by simp [mkCallCase, jsOrStr, hdsc]⟩⟩⟩
      | cons c0 dsc =>
        exact ⟨by simp [jsOrStr], Or.inl ⟨c0 :: dsc, by simp [mkCallCase, hdsc],
          by simp, by simp [mkCallCase, jsOrStr, hdsc]⟩⟩

/-! ## Claim C3 (amended) -/

theorem decoratorScan_pairwise (content : Str) :
    List.Pairwise (fun p q : Str × Nat => p.2 < q.2) (decoratorScan content) := by
  haveI : IsTrans (Str × Nat) (fun p q => p.2 < q.2) :=
    ⟨fun _ _ _ h1 h2 => Nat.lt_trans h1 h2⟩
  exact List.chain'_iff_pairwise.mp (decoratorScan_chain content)

theorem callScan_pairwise (content : Str) :
    List.Pairwise (fun p q : Str × Nat => p.2 < q.2) (callScan content) := by
  haveI : IsTrans (Str × Nat) (fun p q => p.2 < q.2) :=
    ⟨fun _ _ _ h1 h2 => Nat.lt_trans h1 h2⟩
  exact List.chain'_iff_pairwise.mp (callScan_chain content)

theorem decRecordOpt_lineNumber {ev : Str → Option Config} {path content : Str}
    {d : Str × Nat} {tc : ParsedTestCase}
    (h : (ev d.1).bind (fun cfg =>
        ((functionScan content).find? (fun f => decide (d.2 < f.2))).map
          (fun fn => mkDecoratorCase path content cfg d.2 fn)) = some tc) :
    tc.metadata.lineNumber = lineNumberAt content d.2 := by
  cases hev : ev d.1 with
  | none => rw [hev] at h; simp at h
  | some cfg =>
    rw [hev] at h
    simp only [Option.some_bind] at h
    obtain ⟨fn, _, htc⟩ := Option.map_eq_some'.mp h
    rw [← htc]
    rfl

theorem callRecordOpt_fields {ev : Str → Option Config} {path content : Str}
    {c : Str × Nat} {tc : ParsedTestCase}
    (h : (ev c.1).map (fun cfg => mkCallCase path content cfg c.2) = some tc) :
    tc.metadata.lineNumber = lineNumberAt content c.2
      ∧ tc.metadata.functionName = "inline_test".data := by
  obtain ⟨cfg, _, htc⟩ := Option.map_eq_some'.mp h
  rw [← htc]
  exact ⟨rfl, rfl⟩

/-- C3 (amended): discovered records are the per-file lists concatenated in
file-selection order; within each file the output is *exactly* the
decorator-derived records (one per successfully evaluated and paired
decorator match, in source order) followed by *all* the call-derived
records (in source order): a call site occurring earlier in the text than a
decorator still yields its record later. -/
theorem discovery_output_order (ev : Str → Option Config) (read : Str → Option Str)
    (files patterns : List Str) (path content : Str) :
    discoverAllTests ev read files patterns
      = ((discoverTestFiles files patterns).map
          (fun f => (read f).elim [] (fun c => parseTestFile ev f c))).flatten
    ∧ ∃ dec call,
        dec = (decoratorScan content).filterMap (fun d => (ev d.1).bind (fun cfg =>
            ((functionScan content).find? (fun f => decide (d.2 < f.2))).map
              (fun fn => mkDecoratorCase path content cfg d.2 fn)))
        ∧ call = (callScan content).filterMap (fun c =>
            (ev c.1).map (fun cfg => mkCallCase path content cfg c.2))
        ∧ parseTestFile ev path content = dec ++ call
        ∧ List.Chain' (· ≤ ·) (dec.map (fun tc => tc.metadata.lineNumber))
        ∧ List.Chain' (· ≤ ·) (call.map (fun tc => tc.metadata.lineNumber))
        ∧ ∀ tc ∈ call, tc.metadata.functionName = "inline_test".data := by
  constructor
  · exact foldr_append_eq_flatten _ _
  · refine ⟨(decoratorScan content).filterMap (fun d => (ev d.1).bind (fun cfg =>
        ((functionScan content).find? (fun f => decide (d.2 < f.2))).map
          (fun fn => mkDecoratorCase path content cfg d.2 fn))),
      (callScan content).filterMap (fun c =>
        (ev c.1).map (fun cfg => mkCallCase path content cfg c.2)),
      rfl, rfl,
      parseTestFile_filterMap ev path content, ?_, ?_, ?_⟩
    · rw [List.chain'_map]
      apply List.Pairwise.chain'
      refine pairwise_filterMap_transfer _ ?_ (decoratorScan_pairwise content)
      intro a b hab tca hta tcb htb
      rw [decRecordOpt_lineNumber hta, decRecordOpt_lineNumber htb]
      exact lineNumberAt_mono content (Nat.le_of_lt hab)
    · rw [List.chain'_map]
      apply List.Pairwise.chain'
      refine pairwise_filterMap_transfer _ ?_ (callScan_pairwise content)
      intro a b hab tca hta tcb htb
      rw [(callRecordOpt_fields hta).1, (callRecordOpt_fields htb).1]
      exact lineNumberAt_mono content (Nat.le_of_lt hab)
    · intro tc htc
      obtain ⟨c, _, hc⟩ := List.mem_filterMap.mp htc
      exact (callRecordOpt_fields hc).2

/-- C3 counterexample: in a file whose call declaration (line 1) precedes
its annotated declaration (line 2), the decorator's record still comes
first, so records are not in declaration-site source order. -/
theorem discovery_output_order_cex :
    ((parseTestFile
        (fun s => if s = "\x7ba\x7d".data then some {}
          else if s = "\x7bb\x7d".data then some {} else none)
        ("f.ts".data)
        ("evalops_test(\x7ba\x7d, function () \x7b \x7d)\n@evalops_test(\x7bb\x7d) function foo() \x7b \x7d".data)).map
          (fun tc => (tc.metadata.functionName, tc.metadata.lineNumber)))
      = [("foo".data, 2), ("inline_test".data, 1)]
    ∧ ¬ List.Chain' (· ≤ ·)
        ((parseTestFile
          (fun s => if s = "\x7ba\x7d".data then some {}
            else if s = "\x7bb\x7d".data then some {} else none)
          ("f.ts".data)
          ("evalops_test(\x7ba\x7d, function () \x7b \x7d)\n@evalops_test(\x7bb\x7d) function foo() \x7b \x7d".data)).map
            (fun tc => tc.metadata.lineNumber)) := by
  constructor
  · rfl
  · intro hch
    have : List.Chain' (· ≤ ·) [2, 1] := by
      have e : ((parseTestFile
          (fun s => if s = "\x7ba\x7d".data then some {}
            else if s = "\x7bb\x7d".data then some {} else none)
          ("f.ts".data)
          ("evalops_test(\x7ba\x7d, function () \x7b \x7d)\n@evalops_test(\x7bb\x7d) function foo() \x7b \x7d".data)).map
            (fun tc => tc.metadata.lineNumber)) = [2, 1] := by rfl
      rwa [e] at hch
    simp at this

/-- C7 (amended): file selection returns a duplicate-free list containing
exactly the snapshot files that match some inclusion pattern and match none
of the three ignore patterns `node_modules/**`, `dist/**`, `build/**`
(i.e. files under a *top-level* ignored directory are excluded; nested
occurrences of those directory names are not); on the scenario directory the
two patterns select exactly `a.eval.ts` and `b.test.js`. -/
theorem file_selection_spec :
    (∀ files patterns : List Str,
        (discoverTestFiles files patterns).Nodup
        ∧ ∀ f : Str, f ∈ discoverTestFiles files patterns ↔
            (f ∈ files ∧ (∃ p ∈ patterns, globPatternMatch p f = true)
              ∧ ∀ ig ∈ ignorePatterns, globPatternMatch ig f = false))
    ∧ discoverTestFiles ["a.eval.ts".data, "b.test.js".data, "c.ts".data]
        ["**/*.eval.ts".data, "**/*.test.js".data]
      = ["a.eval.ts".data, "b.test.js".data] :=
  ⟨fun files patterns =>
    ⟨nodup_dedupFirstAux _ _, fun f => mem_discoverTestFiles files patterns f⟩,
   by rfl⟩

theorem file_selection_spec_witness :
    ("a.eval.ts".data ∈ discoverTestFiles ["a.eval.ts".data, "c.ts".data]
        ["**/*.eval.ts".data])
    ∧ (discoverTestFiles ["a.eval.ts".data, "c.ts".data] ["**/*.eval.ts".data]).Nodup := by
  have h := (file_selection_spec).1 ["a.eval.ts".data, "c.ts".data] ["**/*.eval.ts".data]
  exact ⟨(h.2 ("a.eval.ts".data)).mpr
    ⟨by decide, ⟨"**/*.eval.ts".data, by decide, by rfl⟩, by decide⟩, h.1⟩

/-- C7 counterexample: a file under a *nested* `node_modules` directory
matches the inclusion pattern, is not matched by the anchored ignore pattern
`node_modules/**`, and is therefore returned, although its path contains a
`node_modules` segment. -/
theorem file_selection_nested_dir_cex :
    discoverTestFiles ["x/node_modules/a.eval.ts".data] ["**/*.eval.ts".data]
      = ["x/node_modules/a.eval.ts".data]
    ∧ "node_modules".data ∈ splitSegs ("x/node_modules/a.eval.ts".data) :=
  ⟨by rfl, by decide⟩

/-- C5 (amended): for a call `…(arg1, arg2)…` whose *first* argument
contains no parentheses and no commas, whose separator whitespace consists
of spaces/tabs/newlines, and whose second argument starts with a
non-whitespace character and is parenthesis-balanced, the extraction
returns exactly the second argument's text: from just after the first
depth-1 comma, trimmed of leading spaces/tabs/newlines, up to the closing
parenthesis (exclusive).  (When the first argument itself contains a comma
— allowed by the configuration-object grammar — the depth-1 comma found is
inside it and the returned text is *not* the second argument; see the
counterexample.) -/
theorem second_call_argument_extraction
    (content pre arg1 ws arg2T post : Str) (a : Char)
    (hcontent : content = pre ++ '(' :: (arg1 ++ ',' :: (ws ++ a :: (arg2T ++ ')' :: post))))
    (h1 : ∀ c ∈ arg1, c ≠ '(' ∧ c ≠ ')' ∧ c ≠ ',')
    (h2 : ∀ c ∈ ws, c = ' ' ∨ c = '\t' ∨ c = '\n')
    (ha : a ≠ ' ' ∧ a ≠ '\t' ∧ a ≠ '\n')
    (hsafe : callSegSafe (ws ++ a :: arg2T) 1 = true)
    (hfin : callSegFinal (ws ++ a :: arg2T) 1 = 1) :
    extractFunctionFromCall content pre.length = a :: arg2T := by
  subst hcontent
  unfold extractFunctionFromCall
  rw [List.drop_left, extractCallAux, if_pos rfl,
    (show ((0 : Int) + 1) = 1 from by norm_num),
    extractCallAux_skipArg1 _ h1, extractCallAux, if_neg (by decide), if_neg (by decide),
    if_pos ⟨rfl, rfl, rfl⟩, firstNonWs_append h2 a ha]
  have hT : ws ++ a :: (arg2T ++ ')' :: post) = (ws ++ a :: arg2T) ++ (')' :: post) := by
    simp [List.append_assoc]
  rw [hT, extractCallAux_skipSeg _ 1 (')' :: post) _ _ hsafe, hfin,
    extractCallAux, if_neg (by decide), if_pos rfl, if_pos (by norm_num)]
  rw [jsSubstring_nat _ (pre.length + 1 + arg1.length + 1 + ws.length)
      (pre.length + 1 + arg1.length + 1 + (ws ++ a :: arg2T).length)
      (by simp only [List.length_append, List.length_cons]; omega)
      (by simp only [List.length_append, List.length_cons]; omega)]
  have hA : pre ++ '(' :: (arg1 ++ ',' :: ((ws ++ a :: arg2T) ++ ')' :: post))
      = (pre ++ '(' :: arg1 ++ ',' :: ws) ++ ((a :: arg2T) ++ ')' :: post) := by
    simp [List.append_assoc]
  have hn1 : pre.length + 1 + arg1.length + 1 + ws.length
      = (pre ++ '(' :: arg1 ++ ',' :: ws).length := by
    simp only [List.length_append, List.length_cons]
    omega
  have hn2 : pre.length + 1 + arg1.length + 1 + (ws ++ a :: arg2T).length
      - (pre.length + 1 + arg1.length + 1 + ws.length) = (a :: arg2T).length := by
    simp only [List.length_append, List.length_cons]
    omega
  rw [hn2, hn1, hA, List.drop_left, List.take_left]

theorem second_call_argument_extraction_witness :
    extractFunctionFromCall ("evalops_test(\x7bd\x7d, function()\x7b\x7d)".data)
        ("evalops_test".data).length
      = "function()\x7b\x7d".data :=
  second_call_argument_extraction _ ("evalops_test".data) ("\x7bd\x7d".data)
    (" ".data) ("unction()\x7b\x7d".data) [] 'f'
    (by rfl) (by decide) (by decide) (by decide) (by rfl) (by rfl)

/-- C5 counterexample: with a two-argument call whose configuration object
contains a comma, the first depth-1 comma found is *inside* the first
argument, so the returned text is not the second argument. -/
theorem second_call_argument_extraction_cex :
    extractFunctionFromCall ("evalops_test(\x7ba:1,b:2\x7d, function()\x7b\x7d)".data) 12
      = "b:2\x7d, function()\x7b\x7d".data
    ∧ ("b:2\x7d, function()\x7b\x7d".data : Str) ≠ "function()\x7b\x7d".data :=
  ⟨by rfl, by decide⟩

/-! ## Witnesses for the remaining claims -/

theorem parseTestFile_total_witness :
    parseTestFileE (fun _ => none) ("f.ts".data)
        ("@evalops_test(\x7bd\x7d) function foo()\x7b return 1 \x7d".data) = .ok []
    ∧ ∃ l, parseTestFileE
        (fun _ => some { description := Except.error () }) ("f.ts".data)
        ("evalops_test(\x7by\x7d, function () \x7b \x7d)".data) = .ok l :=
  ⟨parseTestFile_total.2.1 ("f.ts".data) _, parseTestFile_total.2.2 _ ("f.ts".data) _ (by rfl)⟩

/-- C10 counterexample: a decorator configuration with a throwing
`description` getter evaluates successfully as a literal (the getter body is
not run), pairs with the following function, and then throws during record
construction — which is outside the per-declaration handler — so parsing
the file raises instead of returning a record list. -/
theorem parseTestFile_total_cex :
    parseTestFileE
      (fun s => if s = "\x7bget description()\x7bthrow 1\x7d\x7d".data
        then some { description := Except.error () } else none)
      ("f.ts".data)
      ("@evalops_test(\x7bget description()\x7bthrow 1\x7d\x7d) function foo() \x7b \x7d".data)
      = .error () := by rfl

theorem annotated_single_declaration_witness :
    ∃ tc, parseTestFile (fun s => if s = "\x7bd\x7d".data then some {} else none)
        ("f.ts".data) ("@evalops_test(\x7bd\x7d) function foo()\x7b return 1 \x7d".data)
      = [tc]
      ∧ tc.metadata.functionName = "foo".data
      ∧ objGet tc.vars codeKey = some ('{' :: (" return 1 ".data ++ ['}'])) :=
  annotated_single_declaration _ _ _ ("\x7bd\x7d".data) 0 {} ("foo".data) 19
    ("function foo()".data) (" return 1 ".data) []
    (by rfl) (by rfl) (by rfl) (by rfl) (by rfl) (by decide) (by rfl) (by rfl)
    (by simp)

theorem malformed_config_dropped_witness :
    (∃ pre post calls,
      parseTestFile (fun s => if s = "\x7bok\x7d".data then some {} else none)
          ("f.ts".data)
          ("@evalops_test(\x7bbad\x7d)\n@evalops_test(\x7bok\x7d)\nfunction foo() \x7b \x7d".data)
        = pre ++ (post ++ calls)
      ∧ parseTestFile (fun s => if s = "\x7bok\x7d".data then some {}
            else if s = "\x7bbad\x7d".data then some {} else none)
          ("f.ts".data)
          ("@evalops_test(\x7bbad\x7d)\n@evalops_test(\x7bok\x7d)\nfunction foo() \x7b \x7d".data)
        = pre ++ ((((functionScan
              ("@evalops_test(\x7bbad\x7d)\n@evalops_test(\x7bok\x7d)\nfunction foo() \x7b \x7d".data)).find?
              (fun f => decide (0 < f.2))).elim []
              (fun fn => [mkDecoratorCase ("f.ts".data)
                ("@evalops_test(\x7bbad\x7d)\n@evalops_test(\x7bok\x7d)\nfunction foo() \x7b \x7d".data)
                {} 0 fn])) ++ (post ++ calls)))
    ∧ (∃ decs pre post,
      parseTestFile (fun s => if s = "\x7by\x7d".data then some {} else none)
          ("f.ts".data)
          ("evalops_test(\x7bx\x7d, function () \x7b \x7d)\nevalops_test(\x7by\x7d, function () \x7b \x7d)".data)
        = decs ++ (pre ++ post)
      ∧ parseTestFile (fun s => if s = "\x7by\x7d".data then some {}
            else if s = "\x7bx\x7d".data then some {} else none)
          ("f.ts".data)
          ("evalops_test(\x7bx\x7d, function () \x7b \x7d)\nevalops_test(\x7by\x7d, function () \x7b \x7d)".data)
        = decs ++ (pre ++ (mkCallCase ("f.ts".data)
            ("evalops_test(\x7bx\x7d, function () \x7b \x7d)\nevalops_test(\x7by\x7d, function () \x7b \x7d)".data)
            {} 0 :: post))) :=
  ⟨(malformed_config_dropped _ _ _ _).1 [] [("\x7bok\x7d".data, 21)] ("\x7bbad\x7d".data) 0 {}
      (by rfl) (by rfl) (by rfl) (by simp) (by decide) (by decide),
   (malformed_config_dropped _ _ _ _).2 [] [("\x7by\x7d".data, 35)] ("\x7bx\x7d".data) 0 {}
      (by rfl) (by rfl) (by rfl) (by decide) (by simp) (by decide)⟩

theorem decorator_pairs_nearest_function_witness :
    ("foo".data, 19) ∈ functionScan
        ("@evalops_test(\x7bd\x7d) function foo()\x7b return 1 \x7d".data)
    ∧ 0 < 19 := by
  have h := (decorator_pairs_nearest_function
      ("@evalops_test(\x7bd\x7d) function foo()\x7b return 1 \x7d".data) 0).1
      ("foo".data, 19) (by rfl)
  exact ⟨h.1, h.2.1⟩

theorem discovery_idempotent_witness :
    discoverAllTests (fun _ => some {})
        (fun f => if f = "a.eval.ts".data
          then some ("@evalops_test(\x7bd\x7d) function foo()\x7b return 1 \x7d".data)
          else none)
        ["a.eval.ts".data, "b.txt".data] ["**/*.eval.ts".data]
      = discoverAllTests (fun _ => some {})
        (fun f => if f = "a.eval.ts".data
          then some ("@evalops_test(\x7bd\x7d) function foo()\x7b return 1 \x7d".data)
          else some ("junk".data))
        ["a.eval.ts".data, "b.txt".data] ["**/*.eval.ts".data] :=
  discovery_idempotent _ _ _ _ _ (by decide)

theorem discovery_output_order_witness :
    ∃ dec call,
      dec = (decoratorScan
          ("@evalops_test(\x7bd\x7d) function foo()\x7b return 1 \x7d".data)).filterMap
          (fun d => ((fun _ => some ({} : Config)) d.1).bind (fun cfg =>
            ((functionScan
                ("@evalops_test(\x7bd\x7d) function foo()\x7b return 1 \x7d".data)).find?
                (fun f => decide (d.2 < f.2))).map
              (fun fn => mkDecoratorCase ("f.ts".data)
                ("@evalops_test(\x7bd\x7d) function foo()\x7b return 1 \x7d".data) cfg d.2 fn)))
      ∧ call = (callScan
          ("@evalops_test(\x7bd\x7d) function foo()\x7b return 1 \x7d".data)).filterMap
          (fun c => ((fun _ => some ({} : Config)) c.1).map
            (fun cfg => mkCallCase ("f.ts".data)
              ("@evalops_test(\x7bd\x7d) function foo()\x7b return 1 \x7d".data) cfg c.2))
      ∧ parseTestFile (fun _ => some ({} : Config)) ("f.ts".data)
          ("@evalops_test(\x7bd\x7d) function foo()\x7b return 1 \x7d".data)
        = dec ++ call
      ∧ List.Chain' (· ≤ ·) (dec.map (fun tc => tc.metadata.lineNumber))
      ∧ List.Chain' (· ≤ ·) (call.map (fun tc => tc.metadata.lineNumber))
      ∧ ∀ tc ∈ call, tc.metadata.functionName = "inline_test".data :=
  (discovery_output_order (fun _ => some {}) (fun _ => none) [] [] ("f.ts".data)
    ("@evalops_test(\x7bd\x7d) function foo()\x7b return 1 \x7d".data)).2

theorem record_description_fallback_witness :
    (∃ tc, tc ∈ parseTestFile (fun s => if s = "\x7bd\x7d".data then some {} else none)
        ("f.ts".data) ("@evalops_test(\x7bd\x7d) function foo()\x7b return 1 \x7d".data)
      ∧ tc.description ≠ [])
    ∧ (∃ tc, tc ∈ parseTestFile (fun s => if s = "\x7by\x7d".data then some {} else none)
        ("f.ts".data) ("evalops_test(\x7by\x7d, function () \x7b \x7d)".data)
      ∧ tc.description ≠ []) := by
  constructor
  · have hmem : mkDecoratorCase ("f.ts".data)
        ("@evalops_test(\x7bd\x7d) function foo()\x7b return 1 \x7d".data) {} 0 ("foo".data, 19)
        ∈ parseTestFile (fun s => if s = "\x7bd\x7d".data then some {} else none)
          ("f.ts".data) ("@evalops_test(\x7bd\x7d) function foo()\x7b return 1 \x7d".data) := by
      rw [(show parseTestFile (fun s => if s = "\x7bd\x7d".data then some {} else none)
          ("f.ts".data) ("@evalops_test(\x7bd\x7d) function foo()\x7b return 1 \x7d".data)
        = [mkDecoratorCase ("f.ts".data)
            ("@evalops_test(\x7bd\x7d) function foo()\x7b return 1 \x7d".data) {} 0
            ("foo".data, 19)] from rfl)]
      exact List.mem_singleton.mpr rfl
    exact ⟨_, hmem, (record_description_fallback _ _ _ _ hmem).1⟩
  · have hmem : mkCallCase ("f.ts".data)
        ("evalops_test(\x7by\x7d, function () \x7b \x7d)".data) {} 0
        ∈ parseTestFile (fun s => if s = "\x7by\x7d".data then some {} else none)
          ("f.ts".data) ("evalops_test(\x7by\x7d, function () \x7b \x7d)".data) := by
      rw [(show parseTestFile (fun s => if s = "\x7by\x7d".data then some {} else none)
          ("f.ts".data) ("evalops_test(\x7by\x7d, function () \x7b \x7d)".data)
        = [mkCallCase ("f.ts".data)
            ("evalops_test(\x7by\x7d, function () \x7b \x7d)".data) {} 0] from rfl)]
      exact List.mem_singleton.mpr rfl
    exact ⟨_, hmem, (record_description_fallback _ _ _ _ hmem).1⟩

/-- C8 counterexample: a configuration *providing* an empty description
(`description: ''`) does not yield a record with that description — the
empty string is falsy, so the fallback is used instead. -/
theorem record_description_empty_cex :
    ((parseTestFile
        (fun s => if s = "\x7bz\x7d".data then some { description := some [] } else none)
        ("f.ts".data) ("@evalops_test(\x7bz\x7d) function foo() \x7b \x7d".data)).map
      (fun tc => (tc.description, tc.metadata.description)))
      = [("Test case for foo".data, some [])]
    ∧ ("Test case for foo".data : Str) ≠ [] :=
  ⟨by rfl, by decide⟩

theorem code_variable_merge_witness :
    ∃ tc, tc ∈ parseTestFile (fun s => if s = "\x7bd\x7d".data then some {} else none)
        ("f.ts".data) ("@evalops_test(\x7bd\x7d) function foo()\x7b return 1 \x7d".data)
      ∧ ∃ (cfg : Config) (extracted : Str), tc.vars = (codeKey, extracted) :: cfg.vars := by
  have hmem : mkDecoratorCase ("f.ts".data)
      ("@evalops_test(\x7bd\x7d) function foo()\x7b return 1 \x7d".data) {} 0 ("foo".data, 19)
      ∈ parseTestFile (fun s => if s = "\x7bd\x7d".data then some {} else none)
        ("f.ts".data) ("@evalops_test(\x7bd\x7d) function foo()\x7b return 1 \x7d".data) := by
    rw [(show parseTestFile (fun s => if s = "\x7bd\x7d".data then some {} else none)
        ("f.ts".data) ("@evalops_test(\x7bd\x7d) function foo()\x7b return 1 \x7d".data)
      = [mkDecoratorCase ("f.ts".data)
          ("@evalops_test(\x7bd\x7d) function foo()\x7b return 1 \x7d".data) {} 0
          ("foo".data, 19)] from rfl)]
    exact List.mem_singleton.mpr rfl
  refine ⟨_, hmem, ?_⟩
  obtain ⟨cfg, extracted, h1, -, -, -, -⟩ :=
    code_variable_merge (fun s => if s = "\x7bd\x7d".data then some {} else none)
      ("f.ts".data) ("@evalops_test(\x7bd\x7d) function foo()\x7b return 1 \x7d".data) _ hmem
  exact ⟨cfg, extracted, h1⟩

end EvalOps
